import Mathlib

/-!
Verification of the 7ZipFuzzer repository (`fuzzer_zip.py`) against its
natural-language specification.

The mutation engine, oracle classifier, crash archiver and fuzzing loop are
embedded shallowly.  Python's global `random` module is modelled as an explicit
stream of natural numbers (`RS`): each primitive draw consumes one stream
value.  `random.randint(lo, hi)` raises `ValueError` when `hi < lo`, so it is
modelled in `Except`; call sites whose bounds are literal constants (and hence
can never produce an empty range) use the non-failing `randintOk`.  Byte
buffers (`bytes`/`bytearray`) are lists of naturals; every strategy is a
function from a buffer and a random state to a result that, like the Python
code, carries the (possibly partially mutated) buffer also on the error path,
because `mutate_zip_structure`'s exception handler reuses the partially
mutated `bytearray` for the bit-flip fallback.

Scan loops (`while pos < len(data) - k`) advance `pos` by at least one per
iteration, so a fuel of `data.length` is always sufficient; the loops are
written with that fuel to keep them structurally recursive.
-/

namespace SevenZipFuzzer

/-- The state of Python's `random` module: an infinite stream of naturals and
a cursor. Each primitive draw consumes one stream value. -/
structure RS where
  stream : Nat → Nat
  idx : Nat

/-- Consume one raw value from the random stream. -/
def RS.next (r : RS) : Nat × RS :=
  (r.stream r.idx, ⟨r.stream, r.idx + 1⟩)

/-- `random.randint(lo, hi)`: uniform draw from `[lo, hi]`; raises
`ValueError` (modelled as `.error`) when the range is empty (`hi < lo`). -/
def randint (lo hi : Nat) (r : RS) : Except String (Nat × RS) :=
  if hi < lo then .error "empty range for randrange()"
  else
    let (v, r') := r.next
    .ok (lo + v % (hi + 1 - lo), r')

/-- `random.randint(lo, hi)` at call sites whose bounds are literals with
`lo ≤ hi`, where the empty-range error is impossible. -/
def randintOk (lo hi : Nat) (r : RS) : Nat × RS :=
  let (v, r') := r.next
  (lo + v % (hi + 1 - lo), r')

/-- `random.random()` modelled with resolution 10^6: a value in `[0, 10^6)`;
`random.random() < p` becomes a comparison with `p * 10^6`. -/
def randFloat (r : RS) : Nat × RS :=
  let (v, r') := r.next
  (v % 1000000, r')

/-- `random.choice(l)` for a non-empty list of naturals. -/
def choice (l : List Nat) (r : RS) : Nat × RS :=
  let (v, r') := r.next
  (l.getD (v % l.length) 0, r')

/-- `os.urandom(k)`: `k` random bytes. -/
def urandom : Nat → RS → List Nat × RS
  | 0, r => ([], r)
  | k + 1, r =>
      let (v, r') := r.next
      let (rest, r'') := urandom k r'
      (v % 256 :: rest, r'')

/-- A byte buffer (`bytes` / `bytearray`); each element is a byte value. -/
abbrev ByteBuf := List Nat

/-- Result of a mutation strategy.  The error carries the exception message,
the buffer as mutated so far (Python mutates the `bytearray` in place, so the
handler in `mutate_zip_structure` sees the partial mutations) and the random
state at the point of failure. -/
abbrev BRes := Except (String × ByteBuf × RS) (ByteBuf × RS)

/-- The buffer carried by a strategy result, on either path. -/
def bufOf : BRes → ByteBuf
  | .ok (b, _) => b
  | .error (_, b, _) => b

/-- Whether a strategy result is a normal return. -/
def isOk : BRes → Bool
  | .ok _ => true
  | .error _ => false

/-- `data[pos:pos+4] == sig` for a 4-byte signature `sig`: true iff the slice
has the full 4 bytes (`pos + 4 ≤ len`) and matches pointwise. -/
def sliceEq4 (d : ByteBuf) (pos : Nat) (sig : List Nat) : Bool :=
  decide (pos + 4 ≤ d.length) &&
  (d.getD pos 0 == sig.getD 0 0) && (d.getD (pos + 1) 0 == sig.getD 1 0) &&
  (d.getD (pos + 2) 0 == sig.getD 2 0) && (d.getD (pos + 3) 0 == sig.getD 3 0)

/-- Local file header signature `b'\x50\x4B\x03\x04'`. -/
def localSig : List Nat := [80, 75, 3, 4]

/-- Central directory signature `b'\x50\x4B\x01\x02'`. -/
def centralSig : List Nat := [80, 75, 1, 2]

/-- Inner loop of `_corrupt_local_headers` / `_corrupt_central_directory`:
`for i in idxs: if random.random() < thresh/10^6: data[pos+i] = randint(0,255)`. -/
def corruptRange (pos thresh : Nat) : List Nat → ByteBuf → RS → ByteBuf × RS
  | [], d, r => (d, r)
  | i :: rest, d, r =>
      let (f, r) := randFloat r
      if f < thresh then
        let (v, r) := randintOk 0 255 r
        corruptRange pos thresh rest (d.set (pos + i) v) r
      else corruptRange pos thresh rest d r

/-- Scan loop shared by `_corrupt_local_headers` (hsMax = 30, thresh 0.4) and
`_corrupt_central_directory` (hsMax = 46, thresh 0.3):
`while pos < len(data) - 4`, on a signature match corrupt
`range(4, min(hsMax, len - pos))` and advance by `header_size + 1`,
otherwise advance by 1. -/
def headerScanLoop (sig : List Nat) (hsMax thresh : Nat) :
    Nat → ByteBuf → RS → Nat → ByteBuf × RS
  | 0, d, r, _ => (d, r)
  | fuel + 1, d, r, pos =>
      if pos < d.length - 4 then
        if sliceEq4 d pos sig then
          let hs := min hsMax (d.length - pos)
          let (d', r') := corruptRange pos thresh ((List.range hs).drop 4) d r
          headerScanLoop sig hsMax thresh fuel d' r' (pos + hs + 1)
        else headerScanLoop sig hsMax thresh fuel d r (pos + 1)
      else (d, r)

/-- `_corrupt_local_headers` (lines 121-136). -/
def corrupt_local_headers (d : ByteBuf) (r : RS) : BRes :=
  .ok (headerScanLoop localSig 30 400000 d.length d r 0)

/-- `_corrupt_central_directory` (lines 138-153). -/
def corrupt_central_directory (d : ByteBuf) (r : RS) : BRes :=
  .ok (headerScanLoop centralSig 46 300000 d.length d r 0)

/-- The fixed compression-method codes of `_mutate_compression_methods`. -/
def compMethodCodes : List Nat := [0, 1, 8, 9, 12, 14, 96, 99, 255]

/-- One signature pass of `_mutate_compression_methods`:
`while pos < len(data) - 8: if slice == sig and pos + 8 < len(data):
data[pos+8] = random.choice(codes); pos += 1`. -/
def compLoop (sig : List Nat) : Nat → ByteBuf → RS → Nat → ByteBuf × RS
  | 0, d, r, _ => (d, r)
  | fuel + 1, d, r, pos =>
      if pos < d.length - 8 then
        if sliceEq4 d pos sig then
          if pos + 8 < d.length then
            let (v, r') := choice compMethodCodes r
            compLoop sig fuel (d.set (pos + 8) v) r' (pos + 1)
          else compLoop sig fuel d r (pos + 1)
        else compLoop sig fuel d r (pos + 1)
      else (d, r)

/-- `_mutate_compression_methods` (lines 155-170): the local-header pass
followed by the central-directory pass. -/
def mutate_compression_methods (d : ByteBuf) (r : RS) : BRes :=
  let (d1, r1) := compLoop localSig d.length d r 0
  .ok (compLoop centralSig d1.length d1 r1 0)

/-- `for i in range(4): data[base+i] = random.randint(0, 255)`. -/
def randWrite4 (d : ByteBuf) (base : Nat) (r : RS) : ByteBuf × RS :=
  let (v0, r) := randintOk 0 255 r
  let d := d.set base v0
  let (v1, r) := randintOk 0 255 r
  let d := d.set (base + 1) v1
  let (v2, r) := randintOk 0 255 r
  let d := d.set (base + 2) v2
  let (v3, r) := randintOk 0 255 r
  (d.set (base + 3) v3, r)

/-- One signature pass of `_corrupt_crc_values` with CRC offset `off`
(14 for the local header, 16 for the central directory):
`while pos < len(data) - 16`, on a match with `pos + off + 4 < len(data)`
overwrite the 4 CRC bytes; always advance by 1. -/
def crcLoop (sig : List Nat) (off : Nat) : Nat → ByteBuf → RS → Nat → ByteBuf × RS
  | 0, d, r, _ => (d, r)
  | fuel + 1, d, r, pos =>
      if pos < d.length - 16 then
        if sliceEq4 d pos sig && decide (pos + off + 4 < d.length) then
          let (d', r') := randWrite4 d (pos + off) r
          crcLoop sig off fuel d' r' (pos + 1)
        else crcLoop sig off fuel d r (pos + 1)
      else (d, r)

/-- `_corrupt_crc_values` (lines 172-188): local pass (offset 14), then
central pass (offset 16). -/
def corrupt_crc_values (d : ByteBuf) (r : RS) : BRes :=
  let (d1, r1) := crcLoop localSig 14 d.length d r 0
  .ok (crcLoop centralSig 16 d1.length d1 r1 0)

/-- `data[pos+i] = (size >> (i*8)) & 0xFF for i in range(4)`: a 32-bit value
written little-endian. -/
def writeLE32 (d : ByteBuf) (pos size : Nat) : ByteBuf :=
  ((((d.set pos (size &&& 255)).set (pos + 1) ((size >>> 8) &&& 255)).set
      (pos + 2) ((size >>> 16) &&& 255)).set (pos + 3) ((size >>> 24) &&& 255))

/-- Scan loop of `_mutate_file_sizes`: `while pos < len(data) - 26`, on a
local-header match overwrite the size fields at offsets +18 and +22 (each
guarded by `pos + offset + 4 < len(data)`, each with an independently drawn
32-bit value) and advance by 30 + 1, otherwise advance by 1. -/
def fileSizesLoop : Nat → ByteBuf → RS → Nat → ByteBuf × RS
  | 0, d, r, _ => (d, r)
  | fuel + 1, d, r, pos =>
      if pos < d.length - 26 then
        if sliceEq4 d pos localSig then
          let (d, r) :=
            if pos + 18 + 4 < d.length then
              let (size, r) := randintOk 0 4294967295 r
              (writeLE32 d (pos + 18) size, r)
            else (d, r)
          let (d, r) :=
            if pos + 22 + 4 < d.length then
              let (size, r) := randintOk 0 4294967295 r
              (writeLE32 d (pos + 22) size, r)
            else (d, r)
          fileSizesLoop fuel d r (pos + 31)
        else fileSizesLoop fuel d r (pos + 1)
      else (d, r)

/-- `_mutate_file_sizes` (lines 190-207). -/
def mutate_file_sizes (d : ByteBuf) (r : RS) : BRes :=
  .ok (fileSizesLoop d.length d r 0)

/-- The six structural ZIP signatures that `_inject_random_headers` chooses
from. -/
def zipHeaders : List (List Nat) :=
  [[80, 75, 3, 4], [80, 75, 1, 2], [80, 75, 5, 6],
   [80, 75, 6, 7], [80, 75, 7, 8], [80, 75, 8, 7]]

/-- `_inject_random_headers` (lines 209-228): for buffers below 5000 bytes,
insert a randomly chosen signature plus 10-100 random bytes at
`position = random.randint(0, len(data))`; larger buffers are returned
unchanged. -/
def inject_random_headers (d : ByteBuf) (r : RS) : BRes :=
  if d.length < 5000 then
    let (hv, r) := r.next
    let header := zipHeaders.getD (hv % zipHeaders.length) []
    match randint 0 d.length r with
    | .error e => .error (e, d, r)
    | .ok (position, r) =>
        let (k, r) := randintOk 10 100 r
        let (extra, r) := urandom k r
        .ok (d.take position ++ (header ++ extra) ++ d.drop position, r)
  else .ok (d, r)

/-- The flip loop of `_bit_flip_mutation`: `num_mutations` times, unless the
buffer is empty, pick `pos = random.randint(0, len(data) - 1)`, a bit
`random.randint(0, 7)`, and xor the byte with `1 << bit`.  The position draw
is guarded by the emptiness break, so its range is never empty and it is
modelled with `randintOk`. -/
def bitFlipLoop : Nat → ByteBuf → RS → ByteBuf × RS
  | 0, d, r => (d, r)
  | n + 1, d, r =>
      if d.length == 0 then (d, r)
      else
        let (pos, r) := randintOk 0 (d.length - 1) r
        let (b, r) := randintOk 0 7 r
        bitFlipLoop n (d.set pos (d.getD pos 0 ^^^ (1 <<< b))) r

/-- `_bit_flip_mutation` (lines 230-241):
`num_mutations = random.randint(1, min(100, len(data) // 10))` — an empty
range (and hence a `ValueError`) whenever `len(data) < 10`. -/
def bit_flip_mutation (d : ByteBuf) (r : RS) : BRes :=
  match randint 1 (min 100 (d.length / 10)) r with
  | .error e => .error (e, d, r)
  | .ok (n, r) => .ok (bitFlipLoop n d r)

/-- The boundary constants of `_boundary_value_mutation`. -/
def boundary_values : List Nat := [0, 255, 127, 128, 65535, 4294967295]

/-- Innermost loop of the multi-byte branch of `_boundary_value_mutation`:
`for j in range(min(4, length - i)): if base + j < len(data):
data[base+j] = (value >> (j*8)) & 0xFF`. -/
def bvInnerJ : List Nat → ByteBuf → Nat → Nat → ByteBuf
  | [], d, _, _ => d
  | j :: rest, d, base, value =>
      let d := if base + j < d.length then d.set (base + j) ((value >>> (j * 8)) &&& 255) else d
      bvInnerJ rest d base value

/-- Middle loop of the multi-byte branch: `for i in range(length): if
pos + i < len(data): value = random.choice(bv); <inner j loop>`. -/
def bvInnerI : List Nat → ByteBuf → RS → Nat → Nat → ByteBuf × RS
  | [], d, r, _, _ => (d, r)
  | i :: rest, d, r, pos, length =>
      if pos + i < d.length then
        let (value, r) := choice boundary_values r
        let d := bvInnerJ (List.range (min 4 (length - i))) d (pos + i) value
        bvInnerI rest d r pos length
      else bvInnerI rest d r pos length

/-- Outer `for _ in range(num_mutations)` loop of `_boundary_value_mutation`.
The single-byte branch (probability 0.3) replaces one byte with the low byte
of a boundary constant and continues; the multi-byte branch draws
`length = random.randint(2, min(8, len(data) - pos))` — an empty range
(`ValueError`) when `pos = len(data) - 1` — writes packed boundary constants,
and then `break`s out of the loop. -/
def bvOuter : Nat → ByteBuf → RS → BRes
  | 0, d, r => .ok (d, r)
  | n + 1, d, r =>
      match randint 0 (d.length - 1) r with
      | .error e => .error (e, d, r)
      | .ok (pos, r) =>
          let (f, r) := randFloat r
          if f < 300000 then
            let (value, r) := choice boundary_values r
            bvOuter n (d.set pos (value &&& 255)) r
          else
            match randint 2 (min 8 (d.length - pos)) r with
            | .error e => .error (e, d, r)
            | .ok (length, r) =>
                let (d, r) := bvInnerI (List.range length) d r pos length
                .ok (d, r)

/-- `_boundary_value_mutation` (lines 243-266): only acts on buffers longer
than 10 bytes; `num_mutations = random.randint(1, 20)`. -/
def boundary_value_mutation (d : ByteBuf) (r : RS) : BRes :=
  if d.length > 10 then
    let (n, r) := randintOk 1 20 r
    bvOuter n d r
  else .ok (d, r)

/-- `for i in range(length): if start + i < len(data): data[start+i] = pattern`. -/
def repeatLoop : List Nat → ByteBuf → Nat → Nat → ByteBuf
  | [], d, _, _ => d
  | i :: rest, d, start, pattern =>
      let d := if start + i < d.length then d.set (start + i) pattern else d
      repeatLoop rest d start pattern

/-- `_repeat_byte_mutation` (lines 268-279): only acts on buffers longer than
20 bytes; overwrites a run of `randint(5, min(50, len - start))` bytes
starting at `start = randint(0, len - 10)` with one repeated byte. -/
def repeat_byte_mutation (d : ByteBuf) (r : RS) : BRes :=
  if d.length > 20 then
    let (pattern, r) := randintOk 0 255 r
    match randint 0 (d.length - 10) r with
    | .error e => .error (e, d, r)
    | .ok (start, r) =>
        match randint 5 (min 50 (d.length - start)) r with
        | .error e => .error (e, d, r)
        | .ok (length, r) => .ok (repeatLoop (List.range length) d start pattern, r)
  else .ok (d, r)

/-- `_arithmetic_mutation` (lines 281-295): only acts on buffers longer than
10 bytes; applies `add`/`sub`/`mul` with a random 1-255 operand to one byte,
wrapping modulo 256 (`& 0xFF`; the subtraction is on Python's signed
integers, so it is computed in `Int`). -/
def arithmetic_mutation (d : ByteBuf) (r : RS) : BRes :=
  if d.length > 10 then
    match randint 0 (d.length - 1) r with
    | .error e => .error (e, d, r)
    | .ok (pos, r) =>
        let (opIdx, r) := r.next
        let op := opIdx % 3
        let (value, r) := randintOk 1 255 r
        let b := d.getD pos 0
        let nb :=
          if op = 0 then (b + value) &&& 255
          else if op = 1 then (((b : Int) - (value : Int)) % 256).toNat
          else (b * value) &&& 255
        .ok (d.set pos nb, r)
  else .ok (d, r)

/-- The `if mutation_type == k` dispatch chain of `mutate_zip_structure`
(lines 96-115). -/
def selectStrategy (mt : Nat) (data : ByteBuf) (r : RS) : BRes :=
  if mt = 1 then corrupt_local_headers data r
  else if mt = 2 then corrupt_central_directory data r
  else if mt = 3 then mutate_compression_methods data r
  else if mt = 4 then corrupt_crc_values data r
  else if mt = 5 then mutate_file_sizes data r
  else if mt = 6 then inject_random_headers data r
  else if mt = 7 then bit_flip_mutation data r
  else if mt = 8 then boundary_value_mutation data r
  else if mt = 9 then repeat_byte_mutation data r
  else arithmetic_mutation data r

/-- `mutate_zip_structure` (lines 87-119): empty buffers are returned
unchanged; otherwise one of the ten strategies is selected by
`mutation_type = random.randint(1, 10)`; an exception inside the strategy is
caught and the bit-flip fallback is run on the partially mutated buffer — an
exception from the fallback itself propagates to the caller. -/
def mutate_zip_structure (data : ByteBuf) (r : RS) : BRes :=
  if data.length == 0 then .ok (data, r)
  else
    let (mt, r) := randintOk 1 10 r
    match selectStrategy mt data r with
    | .ok out => .ok out
    | .error (_, pbuf, r') => bit_flip_mutation pbuf r'

/-! ## Oracle adapter -/

/-- The observable outcome of a completed `subprocess.run` call: exit code and
the decoded output streams. -/
structure ProcessResult where
  returncode : Int
  stdout : String
  stderr : String

/-- The crash-indicator substrings of `analyze_7zip_result` (lines 329-338). -/
def crash_indicators : List String :=
  ["Exception", "Access violation", "Segmentation fault", "CRASH",
   "Stack overflow", "Heap corruption", "Fatal error", "Internal error"]

/-- `needle in haystack` for Python strings: contiguous substring test. -/
def strContains (haystack needle : String) : Bool :=
  decide (needle.data <:+: haystack.data)

/-- `analyze_7zip_result` (lines 320-354): `None` (timeout) is crash-like;
exit code 2 (fatal error) and 8 (memory error) are crash-like before any
output is inspected; otherwise crash-like iff either stream contains one of
the indicator substrings. -/
def analyze_7zip_result : Option ProcessResult → Bool
  | none => true
  | some p =>
      if p.returncode = 2 then true
      else if p.returncode = 8 then true
      else if crash_indicators.any (fun ind => strContains p.stdout ind) ||
              crash_indicators.any (fun ind => strContains p.stderr ind) then true
      else false

/-- The three ways an invocation of the external 7zip process can end. -/
inductive RunOutcome where
  | completed (p : ProcessResult)
  | timeoutExpired
  | launchFailure

/-- `run_7zip_test` (lines 297-318): a completed process is classified by
`analyze_7zip_result` and returned with its handle; `TimeoutExpired` yields
`(True, None)`; any other launch failure yields `(False, None)`. -/
def run_7zip_test : RunOutcome → Bool × Option ProcessResult
  | .completed p => (analyze_7zip_result (some p), some p)
  | .timeoutExpired => (true, none)
  | .launchFailure => (false, none)

/-! ## Crash archiver and fuzzing loop -/

/-- The scheduler's mutable counters, plus observable archiver effects:
`records` counts crash-record directories created and `archiveLogs` counts
archiving errors caught and logged inside `save_crash`. -/
structure FuzzState where
  iterationCount : Nat
  crashCount : Nat
  records : Nat
  archiveLogs : Nat
deriving DecidableEq

/-- `save_crash` (lines 356-392), with its two I/O failure points made
explicit.  `self.crash_count += 1` runs first, unconditionally.
`os.makedirs` runs *outside* the `try` block, so a failure there
(`mkdirFail`) propagates to the caller (returned flag `true`) after the
counter increment and before a record directory exists.  Failures of the
writes inside the `try` block (`writeFail`) are caught and logged. -/
def save_crash (mkdirFail writeFail : Bool) (s : FuzzState) : FuzzState × Bool :=
  let s := FuzzState.mk s.iterationCount (s.crashCount + 1) s.records s.archiveLogs
  if mkdirFail then (s, true)
  else
    let s := FuzzState.mk s.iterationCount s.crashCount (s.records + 1) s.archiveLogs
    if writeFail then
      (FuzzState.mk s.iterationCount s.crashCount s.records (s.archiveLogs + 1), false)
    else (s, false)

/-- How a run of the fuzzing loop ended. -/
inductive StopReason where
  | completed
  | earlyLimit
  | runError
deriving DecidableEq

/-- The loop body of `fuzz` (lines 418-450), iterating `i = 1..iterations`.
`verdict i` is the oracle's crash classification of iteration `i`;
`mutFail i` injects an exception from mutation or file handling that escapes
the loop body (caught by the run-level handler, ending the run);
`mkdirFail i` / `writeFail i` inject the two kinds of archiving I/O failure.
After a detected crash the loop breaks as soon as `50 ≤ crash_count`. -/
def fuzzLoop (verdict mkdirFail writeFail mutFail : Nat → Bool) :
    Nat → Nat → FuzzState → FuzzState × StopReason
  | 0, _, s => (s, .completed)
  | rem + 1, i, s =>
      let s := FuzzState.mk i s.crashCount s.records s.archiveLogs
      if mutFail i then (s, .runError)
      else
        let (s, raised) :=
          if verdict i then save_crash (mkdirFail i) (writeFail i) s
          else (s, false)
        if raised then (s, .runError)
        else if 50 ≤ s.crashCount then (s, .earlyLimit)
        else fuzzLoop verdict mkdirFail writeFail mutFail rem (i + 1) s

/-- A fault stream that never fires. -/
def noFail : Nat → Bool := fun _ => false

/-- Counters at process start (`__init__`, lines 43-44). -/
def initState : FuzzState := FuzzState.mk 0 0 0 0

/-- `fuzz(iterations)` (lines 404-459): the loop over `range(1, iterations+1)`
starting from the freshly initialised counters. -/
def fuzz (verdict mkdirFail writeFail mutFail : Nat → Bool) (iterations : Nat) :
    FuzzState × StopReason :=
  fuzzLoop verdict mkdirFail writeFail mutFail iterations 1 initState

/-- Number of crash-like verdicts among iterations `first, …, first+len-1`. -/
def numCrashVerdicts (verdict : Nat → Bool) (first len : Nat) : Nat :=
  (List.range' first len).countP verdict

/-! ## Startup flow and seed synthesis -/

/-- Content of a synthesized seed entry: text or raw bytes. -/
inductive ZipContent where
  | text (s : String)
  | binary (b : List Nat)
deriving DecidableEq

/-- Python's `s * n` string repetition. -/
def repeatStr (s : String) : Nat → String
  | 0 => ""
  | n + 1 => s ++ repeatStr s n

/-- The five entries written by `create_base_zip` (lines 79-83): a plain text
entry, a binary entry, an empty entry, a nested-path entry and a long-name
entry. -/
def baseZipEntries : List (String × ZipContent) :=
  [("normal_file.txt", .text (repeatStr "This is a normal text file for fuzzing" 10)),
   ("binary_data.bin", .binary ((List.range 1000).map (· % 256))),
   ("empty_file.txt", .text ""),
   ("folder/nested_file.txt", .text "Nested file content"),
   ("very_long_name_" ++ String.mk (List.replicate 100 'x') ++ ".txt",
    .text "File with long name")]

/-- `SevenZipFuzzer.__init__`'s startup checks (lines 47-54): exit code 1 when
the base ZIP path does not exist, exit code 1 when no 7zip binary is
resolvable; otherwise construction succeeds. -/
def fuzzerInit (seedExists sevenZipFound : Bool) : Option Nat :=
  if !seedExists then some 1
  else if !sevenZipFound then some 1
  else none

/-- `create_base_zip` (lines 73-85): writes the five seed entries iff the
base ZIP path does not exist at the time it runs. -/
def create_base_zip (seedExists : Bool) : List (String × ZipContent) :=
  if !seedExists then baseZipEntries else []

/-- How `main`'s startup sequence ends: an early `sys.exit(code)` from the
constructor, or reaching the fuzzing stage. -/
inductive StartupResult where
  | exitedEarly (code : Nat)
  | ranFuzz
deriving DecidableEq

/-- `main`'s startup ordering (lines 486-501): the `SevenZipFuzzer`
constructor runs first; only if it does not exit are `create_base_zip` and
`fuzz` reached.  The second component lists the seed entries synthesized
before fuzzing (empty when synthesis is never reached). -/
def mainSeedFlow (seedExists sevenZipFound : Bool) :
    StartupResult × List (String × ZipContent) :=
  match fuzzerInit seedExists sevenZipFound with
  | some code => (.exitedEarly code, [])
  | none => (.ranFuzz, create_base_zip seedExists)

/-! ## Measurement definitions used by the statements -/

/-- Number of positions at which two buffers differ (positions past the end
of the shorter buffer are not counted; all uses compare equal-length
buffers). -/
def countDiffs : ByteBuf → ByteBuf → Nat
  | [], _ => 0
  | _ :: _, [] => 0
  | a :: as, b :: bs => (if a = b then 0 else 1) + countDiffs as bs

/-- Whether two buffers agree on all positions `j < n`. -/
def prefixAgree (a b : ByteBuf) (n : Nat) : Bool :=
  (List.range n).all fun j => a.getD j 0 == b.getD j 0

/-! ## Basic lemmas about lists and the random primitives -/

theorem getD_set_ne (v dflt : Nat) :
    ∀ (l : List Nat) (i j : Nat), i ≠ j → (l.set i v).getD j dflt = l.getD j dflt
  | [], _, _, _ => rfl
  | _ :: _, 0, 0, h => absurd rfl h
  | _ :: _, 0, _ + 1, _ => rfl
  | _ :: _, _ + 1, 0, _ => rfl
  | _ :: as, i + 1, j + 1, h =>
      getD_set_ne v dflt as i j (fun hh => h (by rw [hh]))

theorem getD_set_self (v dflt : Nat) :
    ∀ (l : List Nat) (i : Nat), i < l.length → (l.set i v).getD i dflt = v
  | _ :: _, 0, _ => rfl
  | _ :: as, i + 1, h =>
      getD_set_self v dflt as i (by simpa using h)

theorem countDiffs_self : ∀ l : ByteBuf, countDiffs l l = 0
  | [] => rfl
  | a :: as => by simp [countDiffs, countDiffs_self as]

theorem countDiffs_set_le :
    ∀ (a b : ByteBuf) (i v : Nat), countDiffs a b ≤ 1 + countDiffs (a.set i v) b
  | [], _, _, _ => Nat.le_add_left _ _
  | _ :: _, [], 0, _ => by simp [countDiffs]
  | _ :: _, [], _ + 1, _ => by simp [countDiffs]
  | x :: xs, y :: ys, 0, v => by
      simp only [List.set, countDiffs]
      split <;> split <;> omega
  | x :: xs, y :: ys, i + 1, v => by
      have := countDiffs_set_le xs ys i v
      simp only [List.set, countDiffs]
      split <;> omega

theorem randint_eq_ok (lo hi : Nat) (r : RS) (h : lo ≤ hi) :
    randint lo hi r = .ok (randintOk lo hi r) := by
  simp [randint, randintOk, RS.next, Nat.not_lt.mpr h]

theorem randintOk_le (lo hi : Nat) (r : RS) (h : lo ≤ hi) :
    (randintOk lo hi r).1 ≤ hi := by
  have hm : r.stream r.idx % (hi + 1 - lo) < hi + 1 - lo :=
    Nat.mod_lt _ (by omega)
  simp only [randintOk, RS.next]
  omega

theorem randintOk_ge (lo hi : Nat) (r : RS) : lo ≤ (randintOk lo hi r).1 := by
  simp only [randintOk, RS.next]
  omega

theorem randint_ok_le (lo hi v : Nat) (r r' : RS)
    (h : randint lo hi r = .ok (v, r')) : lo ≤ v ∧ v ≤ hi := by
  by_cases hlt : hi < lo
  · simp [randint, hlt] at h
  · rw [randint_eq_ok lo hi r (by omega)] at h
    have hv : v = (randintOk lo hi r).1 := by
      cases h' : randintOk lo hi r with
      | mk a b => rw [h'] at h; cases h; rfl
    exact hv ▸ ⟨randintOk_ge lo hi r, randintOk_le lo hi r (by omega)⟩

theorem urandom_length : ∀ (k : Nat) (r : RS), (urandom k r).1.length = k
  | 0, _ => rfl
  | k + 1, r => by
      simp only [urandom, RS.next]
      simpa using urandom_length k _

/-! ## Length preservation of the mutation strategies -/

theorem corruptRange_length (pos thresh : Nat) :
    ∀ (idxs : List Nat) (d : ByteBuf) (r : RS),
      ((corruptRange pos thresh idxs d r).1).length = d.length
  | [], _, _ => rfl
  | i :: rest, d, r => by
      simp only [corruptRange]
      split
      · rw [corruptRange_length pos thresh rest]
        simp
      · exact corruptRange_length pos thresh rest d _

theorem headerScanLoop_length (sig : List Nat) (hsMax thresh : Nat) :
    ∀ (fuel : Nat) (d : ByteBuf) (r : RS) (pos : Nat),
      ((headerScanLoop sig hsMax thresh fuel d r pos).1).length = d.length
  | 0, _, _, _ => rfl
  | fuel + 1, d, r, pos => by
      simp only [headerScanLoop]
      split
      · split
        · rw [headerScanLoop_length sig hsMax thresh fuel]
          exact corruptRange_length ..
        · exact headerScanLoop_length sig hsMax thresh fuel d r _
      · rfl

theorem compLoop_length (sig : List Nat) :
    ∀ (fuel : Nat) (d : ByteBuf) (r : RS) (pos : Nat),
      ((compLoop sig fuel d r pos).1).length = d.length
  | 0, _, _, _ => rfl
  | fuel + 1, d, r, pos => by
      simp only [compLoop]
      split
      · split
        · split
          · rw [compLoop_length sig fuel]
            simp
          · exact compLoop_length sig fuel d r _
        · exact compLoop_length sig fuel d r _
      · rfl

theorem randWrite4_length (d : ByteBuf) (base : Nat) (r : RS) :
    ((randWrite4 d base r).1).length = d.length := by
  simp [randWrite4]

theorem crcLoop_length (sig : List Nat) (off : Nat) :
    ∀ (fuel : Nat) (d : ByteBuf) (r : RS) (pos : Nat),
      ((crcLoop sig off fuel d r pos).1).length = d.length
  | 0, _, _, _ => rfl
  | fuel + 1, d, r, pos => by
      simp only [crcLoop]
      split
      · split
        · rw [crcLoop_length sig off fuel]
          exact randWrite4_length ..
        · exact crcLoop_length sig off fuel d r _
      · rfl

theorem writeLE32_length (d : ByteBuf) (pos size : Nat) :
    (writeLE32 d pos size).length = d.length := by
  simp [writeLE32]

theorem fileSizesLoop_length :
    ∀ (fuel : Nat) (d : ByteBuf) (r : RS) (pos : Nat),
      ((fileSizesLoop fuel d r pos).1).length = d.length
  | 0, _, _, _ => rfl
  | fuel + 1, d, r, pos => by
      simp only [fileSizesLoop]
      split
      · split
        · rw [fileSizesLoop_length fuel]
          split <;> split <;> simp [writeLE32_length]
        · exact fileSizesLoop_length fuel d r _
      · rfl

theorem bitFlipLoop_length :
    ∀ (n : Nat) (d : ByteBuf) (r : RS), ((bitFlipLoop n d r).1).length = d.length
  | 0, _, _ => rfl
  | n + 1, d, r => by
      simp only [bitFlipLoop]
      split
      · rfl
      · rw [bitFlipLoop_length n]
        simp

theorem bvInnerJ_length :
    ∀ (js : List Nat) (d : ByteBuf) (base value : Nat),
      (bvInnerJ js d base value).length = d.length
  | [], _, _, _ => rfl
  | j :: rest, d, base, value => by
      simp only [bvInnerJ]
      rw [bvInnerJ_length rest]
      split <;> simp

theorem bvInnerI_length :
    ∀ (is : List Nat) (d : ByteBuf) (r : RS) (pos length : Nat),
      ((bvInnerI is d r pos length).1).length = d.length
  | [], _, _, _, _ => rfl
  | i :: rest, d, r, pos, length => by
      simp only [bvInnerI]
      split
      · rw [bvInnerI_length rest]
        exact bvInnerJ_length ..
      · exact bvInnerI_length rest d r pos length

theorem bvOuter_buf_length :
    ∀ (n : Nat) (d : ByteBuf) (r : RS), (bufOf (bvOuter n d r)).length = d.length
  | 0, _, _ => rfl
  | n + 1, d, r => by
      simp only [bvOuter]
      split
      · rfl
      · split
        · rw [bvOuter_buf_length n]
          simp
        · split
          · rfl
          · simp only [bufOf]
            exact bvInnerI_length ..

theorem repeatLoop_length :
    ∀ (is : List Nat) (d : ByteBuf) (start pattern : Nat),
      (repeatLoop is d start pattern).length = d.length
  | [], _, _, _ => rfl
  | i :: rest, d, start, pattern => by
      simp only [repeatLoop]
      rw [repeatLoop_length rest]
      split <;> simp

theorem corrupt_local_headers_buf_length (d : ByteBuf) (r : RS) :
    (bufOf (corrupt_local_headers d r)).length = d.length := by
  simp only [corrupt_local_headers, bufOf]
  exact headerScanLoop_length ..

theorem corrupt_central_directory_buf_length (d : ByteBuf) (r : RS) :
    (bufOf (corrupt_central_directory d r)).length = d.length := by
  simp only [corrupt_central_directory, bufOf]
  exact headerScanLoop_length ..

theorem mutate_compression_methods_buf_length (d : ByteBuf) (r : RS) :
    (bufOf (mutate_compression_methods d r)).length = d.length := by
  simp only [mutate_compression_methods, bufOf]
  rw [compLoop_length, compLoop_length]

theorem corrupt_crc_values_buf_length (d : ByteBuf) (r : RS) :
    (bufOf (corrupt_crc_values d r)).length = d.length := by
  simp only [corrupt_crc_values, bufOf]
  rw [crcLoop_length, crcLoop_length]

theorem mutate_file_sizes_buf_length (d : ByteBuf) (r : RS) :
    (bufOf (mutate_file_sizes d r)).length = d.length := by
  simp only [mutate_file_sizes, bufOf]
  exact fileSizesLoop_length ..

theorem bit_flip_mutation_buf_length (d : ByteBuf) (r : RS) :
    (bufOf (bit_flip_mutation d r)).length = d.length := by
  simp only [bit_flip_mutation]
  cases h : randint 1 (min 100 (d.length / 10)) r with
  | error e => rfl
  | ok p =>
      obtain ⟨n, r2⟩ := p
      simp only [bufOf]
      exact bitFlipLoop_length n d r2

theorem boundary_value_mutation_buf_length (d : ByteBuf) (r : RS) :
    (bufOf (boundary_value_mutation d r)).length = d.length := by
  simp only [boundary_value_mutation]
  split
  · exact bvOuter_buf_length ..
  · rfl

theorem repeat_byte_mutation_buf_length (d : ByteBuf) (r : RS) :
    (bufOf (repeat_byte_mutation d r)).length = d.length := by
  simp only [repeat_byte_mutation]
  split
  · cases h : randint 0 (d.length - 10) (randintOk 0 255 r).2 with
    | error e => rfl
    | ok p =>
        obtain ⟨start, r1⟩ := p
        dsimp only
        cases h2 : randint 5 (min 50 (d.length - start)) r1 with
        | error e => rfl
        | ok q =>
            obtain ⟨len2, r2⟩ := q
            simp only [bufOf]
            exact repeatLoop_length ..
  · rfl

theorem arithmetic_mutation_buf_length (d : ByteBuf) (r : RS) :
    (bufOf (arithmetic_mutation d r)).length = d.length := by
  simp only [arithmetic_mutation]
  split
  · cases h : randint 0 (d.length - 1) r with
    | error e => rfl
    | ok p => simp [bufOf]
  · rfl

theorem zipHeaders_getD_length (m : Nat) :
    (zipHeaders.getD (m % zipHeaders.length) []).length = 4 := by
  have h : m % zipHeaders.length < 6 := Nat.mod_lt _ (by decide)
  interval_cases hm : m % zipHeaders.length <;> rfl

theorem inject_random_headers_buf_length (d : ByteBuf) (r : RS) :
    d.length ≤ (bufOf (inject_random_headers d r)).length ∧
      (bufOf (inject_random_headers d r)).length ≤ d.length + 104 := by
  simp only [inject_random_headers]
  split
  · cases h : randint 0 d.length ((RS.next r).2) with
    | error e => simp [bufOf]
    | ok p =>
        obtain ⟨hp0, hple⟩ := randint_ok_le 0 d.length p.1 _ p.2 h
        have hk10 : 10 ≤ (randintOk 10 100 p.2).1 := randintOk_ge ..
        have hk : (randintOk 10 100 p.2).1 ≤ 100 := randintOk_le 10 100 p.2 (by omega)
        simp only [bufOf, List.length_append, List.length_take, List.length_drop,
          urandom_length, zipHeaders_getD_length]
        omega
  · simp [bufOf]

theorem selectStrategy_buf_length (mt : Nat) (d : ByteBuf) (r : RS) :
    d.length ≤ (bufOf (selectStrategy mt d r)).length ∧
      (bufOf (selectStrategy mt d r)).length ≤ d.length + 104 := by
  unfold selectStrategy
  split_ifs
  · rw [corrupt_local_headers_buf_length]; omega
  · rw [corrupt_central_directory_buf_length]; omega
  · rw [mutate_compression_methods_buf_length]; omega
  · rw [corrupt_crc_values_buf_length]; omega
  · rw [mutate_file_sizes_buf_length]; omega
  · exact inject_random_headers_buf_length d r
  · rw [bit_flip_mutation_buf_length]; omega
  · rw [boundary_value_mutation_buf_length]; omega
  · rw [repeat_byte_mutation_buf_length]; omega
  · rw [arithmetic_mutation_buf_length]; omega

/-! ## Which strategies can raise -/

theorem isOk_bit_flip_mutation (d : ByteBuf) (r : RS) (h : 10 ≤ d.length) :
    isOk (bit_flip_mutation d r) = true := by
  simp only [bit_flip_mutation]
  have h1 : 1 ≤ min 100 (d.length / 10) := by
    have : 1 ≤ d.length / 10 := Nat.one_le_div_iff (by omega) |>.mpr h
    omega
  rw [randint_eq_ok 1 (min 100 (d.length / 10)) r h1]
  rfl

theorem isOk_inject_random_headers (d : ByteBuf) (r : RS) :
    isOk (inject_random_headers d r) = true := by
  simp only [inject_random_headers]
  split
  · rw [randint_eq_ok 0 d.length _ (Nat.zero_le _)]
    rfl
  · rfl

theorem isOk_repeat_byte_mutation (d : ByteBuf) (r : RS) :
    isOk (repeat_byte_mutation d r) = true := by
  simp only [repeat_byte_mutation]
  split
  · rename_i hlen
    rw [randint_eq_ok 0 (d.length - 10) _ (Nat.zero_le _)]
    have hstart : (randintOk 0 (d.length - 10) (randintOk 0 255 r).2).1 ≤ d.length - 10 :=
      randintOk_le _ _ _ (Nat.zero_le _)
    cases hq : randintOk 0 (d.length - 10) (randintOk 0 255 r).2 with
    | mk start r1 =>
        rw [hq] at hstart
        have hstart' : start ≤ d.length - 10 := hstart
        simp only [hq]
        rw [randint_eq_ok 5 (min 50 (d.length - start)) r1 (by omega)]
        rfl
  · rfl

theorem isOk_arithmetic_mutation (d : ByteBuf) (r : RS) :
    isOk (arithmetic_mutation d r) = true := by
  simp only [arithmetic_mutation]
  split
  · rw [randint_eq_ok 0 (d.length - 1) r (Nat.zero_le _)]
    rfl
  · rfl

theorem selectStrategy_buf_ge (mt : Nat) (d : ByteBuf) (r : RS) :
    d.length ≤ (bufOf (selectStrategy mt d r)).length :=
  (selectStrategy_buf_length mt d r).1

theorem mutate_zip_structure_buf_le (d : ByteBuf) (r : RS) :
    (bufOf (mutate_zip_structure d r)).length ≤ d.length + 104 := by
  unfold mutate_zip_structure
  split
  · simp [bufOf]
  · cases hmt : randintOk 1 10 r with
    | mk mt r2 =>
        dsimp only
        cases hsel : selectStrategy mt d r2 with
        | ok out =>
            have hle := (selectStrategy_buf_length mt d r2).2
            rw [hsel] at hle
            exact hle
        | error trip =>
            obtain ⟨e, pbuf, r3⟩ := trip
            have hb := selectStrategy_buf_length mt d r2
            rw [hsel] at hb
            simp only [bufOf] at hb
            rw [bit_flip_mutation_buf_length]
            omega

theorem mutate_zip_structure_isOk (d : ByteBuf) (r : RS) (h : 10 ≤ d.length) :
    isOk (mutate_zip_structure d r) = true := by
  unfold mutate_zip_structure
  split
  · rfl
  · cases hmt : randintOk 1 10 r with
    | mk mt r2 =>
        dsimp only
        cases hsel : selectStrategy mt d r2 with
        | ok out => rfl
        | error trip =>
            obtain ⟨e, pbuf, r3⟩ := trip
            have hge := selectStrategy_buf_ge mt d r2
            rw [hsel] at hge
            simp only [bufOf] at hge
            exact isOk_bit_flip_mutation pbuf r3 (le_trans h hge)

/-! ## Bound on the number of bytes changed by bit flips -/

theorem bitFlipLoop_countDiffs : ∀ (n : Nat) (d : ByteBuf) (r : RS),
    countDiffs d (bitFlipLoop n d r).1 ≤ n
  | 0, d, _ => by simp [bitFlipLoop, countDiffs_self]
  | n + 1, d, r => by
      simp only [bitFlipLoop]
      split
      · simp [countDiffs_self]
      · have h1 := countDiffs_set_le d
          ((bitFlipLoop n
              (d.set (randintOk 0 (d.length - 1) r).1
                (d.getD (randintOk 0 (d.length - 1) r).1 0 ^^^
                  (1 <<< (randintOk 0 7 (randintOk 0 (d.length - 1) r).2).1)))
              (randintOk 0 7 (randintOk 0 (d.length - 1) r).2).2).1)
          (randintOk 0 (d.length - 1) r).1
          (d.getD (randintOk 0 (d.length - 1) r).1 0 ^^^
            (1 <<< (randintOk 0 7 (randintOk 0 (d.length - 1) r).2).1))
        have h2 := bitFlipLoop_countDiffs n
          (d.set (randintOk 0 (d.length - 1) r).1
            (d.getD (randintOk 0 (d.length - 1) r).1 0 ^^^
              (1 <<< (randintOk 0 7 (randintOk 0 (d.length - 1) r).2).1)))
          (randintOk 0 7 (randintOk 0 (d.length - 1) r).2).2
        omega

/-! ## Frame properties of the compression-method scan -/

theorem compLoop_frame (sig : List Nat) :
    ∀ (fuel : Nat) (d : ByteBuf) (r : RS) (pos j : Nat), j < pos + 8 →
      ((compLoop sig fuel d r pos).1).getD j 0 = d.getD j 0
  | 0, _, _, _, _, _ => rfl
  | fuel + 1, d, r, pos, j, hj => by
      simp only [compLoop]
      split
      · split
        · split
          · rw [compLoop_frame sig fuel _ _ (pos + 1) j (by omega)]
            exact getD_set_ne _ _ _ _ _ (by omega)
          · exact compLoop_frame sig fuel d r (pos + 1) j (by omega)
        · exact compLoop_frame sig fuel d r (pos + 1) j (by omega)
      · rfl

theorem compLoop_start_match (sig : List Nat) (fuel : Nat) (d : ByteBuf) (r : RS)
    (hcond : 8 < d.length) (hsig : sliceEq4 d 0 sig = true) :
    compLoop sig (fuel + 1) d r 0 =
      compLoop sig fuel (d.set 8 (choice compMethodCodes r).1)
        (choice compMethodCodes r).2 1 := by
  have h1 : 0 < d.length - 8 := by omega
  have h2 : 0 + 8 < d.length := by omega
  simp only [compLoop, h1, h2, hsig, if_true, Nat.zero_add]

theorem compLoop_start_nomatch (sig : List Nat) (fuel : Nat) (d : ByteBuf) (r : RS)
    (hcond : 0 < d.length - 8) (hsig : sliceEq4 d 0 sig = false) :
    compLoop sig (fuel + 1) d r 0 = compLoop sig fuel d r 1 := by
  simp [compLoop, hcond, hsig]

theorem getD_mem : ∀ (l : List Nat) (n dflt : Nat), n < l.length → l.getD n dflt ∈ l
  | a :: _, 0, _, _ => List.mem_cons_self a _
  | _ :: as, n + 1, dflt, h =>
      List.mem_cons_of_mem _ (getD_mem as n dflt (by simpa using h))

theorem choice_mem (l : List Nat) (r : RS) (h : l ≠ []) : (choice l r).1 ∈ l := by
  simp only [choice, RS.next]
  exact getD_mem l _ 0 (Nat.mod_lt _ (List.length_pos.mpr h))

/-! ## Behaviour of the fuzzing loop -/

theorem numCrashVerdicts_zero (v : Nat → Bool) (i : Nat) : numCrashVerdicts v i 0 = 0 :=
  rfl

theorem numCrashVerdicts_succ (v : Nat → Bool) (i k : Nat) :
    numCrashVerdicts v i (k + 1) =
      (if v i then 1 else 0) + numCrashVerdicts v (i + 1) k := by
  simp only [numCrashVerdicts, List.range'_succ, List.countP_cons]
  split <;> omega

theorem fuzzLoop_all_crash (verdict : Nat → Bool) (hv : ∀ i, verdict i = true) :
    ∀ (rem i : Nat) (s : FuzzState), s.crashCount < 50 → 50 ≤ s.crashCount + rem →
      fuzzLoop verdict noFail noFail noFail rem i s =
        (FuzzState.mk (i + (49 - s.crashCount)) 50
          (s.records + (50 - s.crashCount)) s.archiveLogs, .earlyLimit)
  | 0, _, _, hlt, hge => absurd hge (by omega)
  | rem + 1, i, s, hlt, hge => by
      by_cases hc : 50 ≤ s.crashCount + 1
      · simp [fuzzLoop, noFail, hv i, save_crash, hc, Prod.mk.injEq, FuzzState.mk.injEq]
        all_goals omega
      · have hrec := fuzzLoop_all_crash verdict hv rem (i + 1)
          (FuzzState.mk i (s.crashCount + 1) (s.records + 1) s.archiveLogs)
          (by simp; omega) (by simp; omega)
        simp [fuzzLoop, noFail, hv i, save_crash, hc, hrec, Prod.mk.injEq,
          FuzzState.mk.injEq]
        all_goals omega

theorem fuzzLoop_count_invariant (verdict : Nat → Bool) :
    ∀ (rem i : Nat) (s : FuzzState), s.iterationCount + 1 = i → s.crashCount ≤ 49 →
      ((fuzzLoop verdict noFail noFail noFail rem i s).1.crashCount =
          s.crashCount + numCrashVerdicts verdict i
            ((fuzzLoop verdict noFail noFail noFail rem i s).1.iterationCount + 1 - i)) ∧
      ((fuzzLoop verdict noFail noFail noFail rem i s).1.records =
          s.records + numCrashVerdicts verdict i
            ((fuzzLoop verdict noFail noFail noFail rem i s).1.iterationCount + 1 - i)) ∧
      i ≤ (fuzzLoop verdict noFail noFail noFail rem i s).1.iterationCount + 1 ∧
      (fuzzLoop verdict noFail noFail noFail rem i s).1.crashCount ≤ 50 ∧
      ((fuzzLoop verdict noFail noFail noFail rem i s).2 = .earlyLimit →
          (fuzzLoop verdict noFail noFail noFail rem i s).1.crashCount = 50)
  | 0, i, s, hiter, hcr => by
      simp only [fuzzLoop]
      rw [show s.iterationCount + 1 - i = 0 from by omega, numCrashVerdicts_zero]
      refine ⟨by omega, by omega, by omega, by omega, by intro h; cases h⟩
  | rem + 1, i, s, hiter, hcr => by
      cases hvi : verdict i with
      | true =>
          by_cases hc : 50 ≤ s.crashCount + 1
          · have hfu : fuzzLoop verdict noFail noFail noFail (rem + 1) i s =
                (FuzzState.mk i (s.crashCount + 1) (s.records + 1) s.archiveLogs,
                  .earlyLimit) := by
              simp [fuzzLoop, noFail, hvi, save_crash, hc]
            rw [hfu]
            rw [show i + 1 - i = 0 + 1 from by omega, numCrashVerdicts_succ, hvi,
              numCrashVerdicts_zero]
            refine ⟨by simp, by simp, by simp, by simp; omega, by intro _; simp; omega⟩
          · have hfu : fuzzLoop verdict noFail noFail noFail (rem + 1) i s =
                fuzzLoop verdict noFail noFail noFail rem (i + 1)
                  (FuzzState.mk i (s.crashCount + 1) (s.records + 1) s.archiveLogs) := by
              simp [fuzzLoop, noFail, hvi, save_crash, hc]
            obtain ⟨ih1, ih2, ih3, ih4, ih5⟩ := fuzzLoop_count_invariant verdict rem (i + 1)
              (FuzzState.mk i (s.crashCount + 1) (s.records + 1) s.archiveLogs)
              rfl (by simp; omega)
            have ih1' : (fuzzLoop verdict noFail noFail noFail rem (i + 1)
                (FuzzState.mk i (s.crashCount + 1) (s.records + 1)
                  s.archiveLogs)).1.crashCount =
              s.crashCount + 1 + numCrashVerdicts verdict (i + 1)
                ((fuzzLoop verdict noFail noFail noFail rem (i + 1)
                  (FuzzState.mk i (s.crashCount + 1) (s.records + 1)
                    s.archiveLogs)).1.iterationCount + 1 - (i + 1)) := ih1
            have ih2' : (fuzzLoop verdict noFail noFail noFail rem (i + 1)
                (FuzzState.mk i (s.crashCount + 1) (s.records + 1)
                  s.archiveLogs)).1.records =
              s.records + 1 + numCrashVerdicts verdict (i + 1)
                ((fuzzLoop verdict noFail noFail noFail rem (i + 1)
                  (FuzzState.mk i (s.crashCount + 1) (s.records + 1)
                    s.archiveLogs)).1.iterationCount + 1 - (i + 1)) := ih2
            rw [hfu]
            refine ⟨?_, ?_, by omega, ih4, ih5⟩
            · rw [show (fuzzLoop verdict noFail noFail noFail rem (i + 1)
                  (FuzzState.mk i (s.crashCount + 1) (s.records + 1)
                    s.archiveLogs)).1.iterationCount + 1 - i =
                ((fuzzLoop verdict noFail noFail noFail rem (i + 1)
                  (FuzzState.mk i (s.crashCount + 1) (s.records + 1)
                    s.archiveLogs)).1.iterationCount + 1 - (i + 1)) + 1 from by omega,
                numCrashVerdicts_succ, hvi, if_pos rfl]
              omega
            · rw [show (fuzzLoop verdict noFail noFail noFail rem (i + 1)
                  (FuzzState.mk i (s.crashCount + 1) (s.records + 1)
                    s.archiveLogs)).1.iterationCount + 1 - i =
                ((fuzzLoop verdict noFail noFail noFail rem (i + 1)
                  (FuzzState.mk i (s.crashCount + 1) (s.records + 1)
                    s.archiveLogs)).1.iterationCount + 1 - (i + 1)) + 1 from by omega,
                numCrashVerdicts_succ, hvi, if_pos rfl]
              omega
      | false =>
          have h50 : ¬ 50 ≤ s.crashCount := by omega
          have hfu : fuzzLoop verdict noFail noFail noFail (rem + 1) i s =
              fuzzLoop verdict noFail noFail noFail rem (i + 1)
                (FuzzState.mk i s.crashCount s.records s.archiveLogs) := by
            simp [fuzzLoop, noFail, hvi, save_crash, h50]
          obtain ⟨ih1, ih2, ih3, ih4, ih5⟩ := fuzzLoop_count_invariant verdict rem (i + 1)
            (FuzzState.mk i s.crashCount s.records s.archiveLogs) rfl (by simp; omega)
          have ih1' : (fuzzLoop verdict noFail noFail noFail rem (i + 1)
              (FuzzState.mk i s.crashCount s.records s.archiveLogs)).1.crashCount =
            s.crashCount + numCrashVerdicts verdict (i + 1)
              ((fuzzLoop verdict noFail noFail noFail rem (i + 1)
                (FuzzState.mk i s.crashCount s.records
                  s.archiveLogs)).1.iterationCount + 1 - (i + 1)) := ih1
          have ih2' : (fuzzLoop verdict noFail noFail noFail rem (i + 1)
              (FuzzState.mk i s.crashCount s.records s.archiveLogs)).1.records =
            s.records + numCrashVerdicts verdict (i + 1)
              ((fuzzLoop verdict noFail noFail noFail rem (i + 1)
                (FuzzState.mk i s.crashCount s.records
                  s.archiveLogs)).1.iterationCount + 1 - (i + 1)) := ih2
          rw [hfu]
          refine ⟨?_, ?_, by omega, ih4, ih5⟩
          · rw [show (fuzzLoop verdict noFail noFail noFail rem (i + 1)
                (FuzzState.mk i s.crashCount s.records
                  s.archiveLogs)).1.iterationCount + 1 - i =
              ((fuzzLoop verdict noFail noFail noFail rem (i + 1)
                (FuzzState.mk i s.crashCount s.records
                  s.archiveLogs)).1.iterationCount + 1 - (i + 1)) + 1 from by omega,
              numCrashVerdicts_succ, hvi]
            rw [if_neg (by simp)]
            omega
          · rw [show (fuzzLoop verdict noFail noFail noFail rem (i + 1)
                (FuzzState.mk i s.crashCount s.records
                  s.archiveLogs)).1.iterationCount + 1 - i =
              ((fuzzLoop verdict noFail noFail noFail rem (i + 1)
                (FuzzState.mk i s.crashCount s.records
                  s.archiveLogs)).1.iterationCount + 1 - (i + 1)) + 1 from by omega,
              numCrashVerdicts_succ, hvi]
            rw [if_neg (by simp)]
            omega

theorem bufOf_ok (p : ByteBuf × RS) : bufOf (.ok p) = p.1 := by
  cases p
  rfl

/-! ## Claim theorems -/

/-- **C9.** For the empty input buffer, `mutate_zip_structure` returns the
empty buffer unchanged for every random stream — and hence whichever of the
ten strategies would have been selected — with no out-of-bounds access: the
`len(data) == 0` guard returns before any strategy runs. -/
theorem mutate_empty_returns_empty (r : RS) :
    mutate_zip_structure [] r = .ok ([], r) := rfl

/-- **C5.** The oracle classifier returns CrashLike (true) for exit code 2
and exit code 8 regardless of the captured output text, and a timeout of the
external tool is classified CrashLike with no process handle (`none`). -/
theorem oracle_exit_codes_and_timeout_crashlike (out err : String) :
    analyze_7zip_result (some ⟨2, out, err⟩) = true ∧
    analyze_7zip_result (some ⟨8, out, err⟩) = true ∧
    run_7zip_test .timeoutExpired = (true, none) :=
  ⟨rfl, rfl, rfl⟩

/-- **C10.** Each of the nine strategies other than header injection
(local-header corruption, central-directory corruption, compression-method,
checksum, size-field, bit-flip, boundary-value, run-length, arithmetic)
yields a buffer of exactly the input's length, so the buffer length changes
only when the injection strategy is selected, and injection never shrinks
the buffer (it only grows it). -/
theorem nine_strategies_preserve_length (d : ByteBuf) (r : RS) :
    (bufOf (corrupt_local_headers d r)).length = d.length ∧
    (bufOf (corrupt_central_directory d r)).length = d.length ∧
    (bufOf (mutate_compression_methods d r)).length = d.length ∧
    (bufOf (corrupt_crc_values d r)).length = d.length ∧
    (bufOf (mutate_file_sizes d r)).length = d.length ∧
    (bufOf (bit_flip_mutation d r)).length = d.length ∧
    (bufOf (boundary_value_mutation d r)).length = d.length ∧
    (bufOf (repeat_byte_mutation d r)).length = d.length ∧
    (bufOf (arithmetic_mutation d r)).length = d.length ∧
    d.length ≤ (bufOf (inject_random_headers d r)).length :=
  ⟨corrupt_local_headers_buf_length d r, corrupt_central_directory_buf_length d r,
   mutate_compression_methods_buf_length d r, corrupt_crc_values_buf_length d r,
   mutate_file_sizes_buf_length d r, bit_flip_mutation_buf_length d r,
   boundary_value_mutation_buf_length d r, repeat_byte_mutation_buf_length d r,
   arithmetic_mutation_buf_length d r, (inject_random_headers_buf_length d r).1⟩

/-- **C7.** For every input buffer and every strategy (each dispatch value
`mt`, and the top-level mutate including its fallback path) the output
length never exceeds input length + 110 — header injection grows by at most
4 + 100 = 104 bytes — and the nine non-growing strategies keep the output
length at most the input length. -/
theorem mutation_length_growth_bound (d : ByteBuf) (r : RS) (mt : Nat) :
    ((bufOf (selectStrategy mt d r)).length ≤ d.length + 110 ∧
     (bufOf (mutate_zip_structure d r)).length ≤ d.length + 110) ∧
    ((bufOf (corrupt_local_headers d r)).length ≤ d.length ∧
     (bufOf (corrupt_central_directory d r)).length ≤ d.length ∧
     (bufOf (mutate_compression_methods d r)).length ≤ d.length ∧
     (bufOf (corrupt_crc_values d r)).length ≤ d.length ∧
     (bufOf (mutate_file_sizes d r)).length ≤ d.length ∧
     (bufOf (bit_flip_mutation d r)).length ≤ d.length ∧
     (bufOf (boundary_value_mutation d r)).length ≤ d.length ∧
     (bufOf (repeat_byte_mutation d r)).length ≤ d.length ∧
     (bufOf (arithmetic_mutation d r)).length ≤ d.length) := by
  refine ⟨⟨?_, ?_⟩, ?_⟩
  · have := (selectStrategy_buf_length mt d r).2
    omega
  · have := mutate_zip_structure_buf_le d r
    omega
  · exact ⟨le_of_eq (corrupt_local_headers_buf_length d r),
      le_of_eq (corrupt_central_directory_buf_length d r),
      le_of_eq (mutate_compression_methods_buf_length d r),
      le_of_eq (corrupt_crc_values_buf_length d r),
      le_of_eq (mutate_file_sizes_buf_length d r),
      le_of_eq (bit_flip_mutation_buf_length d r),
      le_of_eq (boundary_value_mutation_buf_length d r),
      le_of_eq (repeat_byte_mutation_buf_length d r),
      le_of_eq (arithmetic_mutation_buf_length d r)⟩

/-- **C1 (counterexample).** The claim "mutate never raises for non-empty
buffers" is false: on the 1-byte buffer `[0]`, with a random stream whose
first value 6 selects `mutation_type = 7` (bit flip),
`random.randint(1, min(100, 1 // 10)) = randint(1, 0)` raises `ValueError`;
the except-handler's fallback call to the bit-flip strategy raises the same
way, and the exception propagates out of `mutate_zip_structure`. -/
theorem mutate_short_buffer_raises :
    isOk (mutate_zip_structure [0] (RS.mk (fun _ => 6) 0)) = false := rfl

/-- **C1 (amended).** For every input buffer of length at least 10,
`mutate_zip_structure` returns a buffer without raising: if the selected
strategy raises internally, the bit-flip fallback (whose
`randint(1, min(100, len // 10))` range is non-empty for length ≥ 10)
succeeds on the partially mutated buffer and the call returns normally.
(For non-empty buffers shorter than 10 bytes the fallback itself raises, as
the counterexample shows.) -/
theorem mutate_no_raise_of_len_ge_ten (d : ByteBuf) (r : RS) (h : 10 ≤ d.length) :
    isOk (mutate_zip_structure d r) = true :=
  mutate_zip_structure_isOk d r h

/-- Witness for `mutate_no_raise_of_len_ge_ten` at a concrete 10-byte buffer
and stream. -/
theorem mutate_no_raise_of_len_ge_ten_witness :
    10 ≤ (List.replicate 10 0 : ByteBuf).length ∧
    isOk (mutate_zip_structure (List.replicate 10 0) (RS.mk (fun _ => 6) 0)) = true :=
  ⟨by decide, mutate_no_raise_of_len_ge_ten (List.replicate 10 0)
    (RS.mk (fun _ => 6) 0) (by decide)⟩

/-- **C3 (counterexample).** The claim that bit flip changes at least one
byte position is false: on the 20-byte zero buffer with random stream
1, 0, 0, …, `num_mutations = 2` and both flips hit position 0 with bit mask
1, cancelling — the output equals the input, differing in 0 positions. -/
theorem bit_flip_can_change_zero_bytes :
    countDiffs (List.replicate 20 0)
      (bufOf (bit_flip_mutation (List.replicate 20 0)
        (RS.mk (fun i => if i = 0 then 1 else 0) 0))) = 0 ∧
    bufOf (bit_flip_mutation (List.replicate 20 0)
      (RS.mk (fun i => if i = 0 then 1 else 0) 0)) = List.replicate 20 0 :=
  ⟨rfl, rfl⟩

/-- **C3 (amended).** Whenever the bit-flip strategy returns normally on a
buffer of length L (for 1 ≤ L ≤ 9 it instead raises on the empty
`randint(1, min(100, L // 10))` range), the output has length L and differs
from the input in at most min(100, L // 10) byte positions.  "At least 1
position" and "exactly one differing bit per position" do not hold, because
the same position (and the same bit) can be drawn more than once. -/
theorem bit_flip_changes_at_most_bound (d : ByteBuf) (r : RS) (out : ByteBuf) (r' : RS)
    (h : bit_flip_mutation d r = .ok (out, r')) :
    out.length = d.length ∧ countDiffs d out ≤ min 100 (d.length / 10) := by
  unfold bit_flip_mutation at h
  cases hq : randint 1 (min 100 (d.length / 10)) r with
  | error e => rw [hq] at h; cases h
  | ok p =>
      obtain ⟨n, r2⟩ := p
      rw [hq] at h
      have hn := (randint_ok_le 1 (min 100 (d.length / 10)) n r r2 hq).2
      have h' : (Except.ok (bitFlipLoop n d r2) : BRes) = .ok (out, r') := h
      have h2 : bitFlipLoop n d r2 = (out, r') := by
        injection h'
      have hout : out = (bitFlipLoop n d r2).1 := by rw [h2]
      rw [hout]
      exact ⟨bitFlipLoop_length n d r2,
        le_trans (bitFlipLoop_countDiffs n d r2) hn⟩

/-- Witness for `bit_flip_changes_at_most_bound`: a concrete run on a
20-byte buffer performing one flip. -/
theorem bit_flip_changes_at_most_bound_witness :
    bit_flip_mutation (List.replicate 20 0) (RS.mk (fun _ => 0) 0) =
      .ok (1 :: List.replicate 19 0, RS.mk (fun _ => 0) 3) ∧
    ((1 :: List.replicate 19 0 : ByteBuf).length =
        (List.replicate 20 0 : ByteBuf).length ∧
      countDiffs (List.replicate 20 0) (1 :: List.replicate 19 0) ≤
        min 100 ((List.replicate 20 0 : ByteBuf).length / 10)) :=
  ⟨rfl, bit_flip_changes_at_most_bound (List.replicate 20 0) (RS.mk (fun _ => 0) 0)
    (1 :: List.replicate 19 0) (RS.mk (fun _ => 0) 3) rfl⟩

/-- **C4.** With an oracle returning CrashLike on every iteration, no
injected failures, and an iteration budget of at least 50, the run stops
with exactly 50 crash records — never 51 — with crash counter 50 and reason
EarlyLimit.  More generally (second group, arbitrary verdict stream): the
crash counter equals the number of CrashLike verdicts among the iterations
actually run, the record count equals the crash counter, the counter never
exceeds the fixed threshold 50, and an early stop happens exactly when the
counter reaches 50. -/
theorem fuzz_early_stop_at_fifty (budget : Nat) (verdict : Nat → Bool)
    (budget2 : Nat) (verdict2 : Nat → Bool)
    (hall : ∀ i, verdict i = true) (hb : 50 ≤ budget) :
    fuzz verdict noFail noFail noFail budget =
      (FuzzState.mk 50 50 50 0, .earlyLimit) ∧
    ((fuzz verdict2 noFail noFail noFail budget2).1.crashCount =
        numCrashVerdicts verdict2 1
          ((fuzz verdict2 noFail noFail noFail budget2).1.iterationCount) ∧
      (fuzz verdict2 noFail noFail noFail budget2).1.records =
        (fuzz verdict2 noFail noFail noFail budget2).1.crashCount ∧
      (fuzz verdict2 noFail noFail noFail budget2).1.crashCount ≤ 50 ∧
      ((fuzz verdict2 noFail noFail noFail budget2).2 = .earlyLimit →
        (fuzz verdict2 noFail noFail noFail budget2).1.crashCount = 50)) := by
  have h1 := fuzzLoop_all_crash verdict hall budget 1 initState
    (by simp [initState]) (by simp [initState]; omega)
  obtain ⟨ih1, ih2, ih3, ih4, ih5⟩ := fuzzLoop_count_invariant verdict2 budget2 1 initState
    (by simp [initState]) (by simp [initState])
  have ih1' : (fuzzLoop verdict2 noFail noFail noFail budget2 1 initState).1.crashCount =
      numCrashVerdicts verdict2 1
        ((fuzzLoop verdict2 noFail noFail noFail budget2 1 initState).1.iterationCount) := by
    simpa [initState] using ih1
  have ih2' : (fuzzLoop verdict2 noFail noFail noFail budget2 1 initState).1.records =
      numCrashVerdicts verdict2 1
        ((fuzzLoop verdict2 noFail noFail noFail budget2 1 initState).1.iterationCount) := by
    simpa [initState] using ih2
  refine ⟨?_, ?_, ?_, ih4, ih5⟩
  · simpa [initState, fuzz] using h1
  · exact ih1'
  · show (fuzzLoop verdict2 noFail noFail noFail budget2 1 initState).1.records =
      (fuzzLoop verdict2 noFail noFail noFail budget2 1 initState).1.crashCount
    rw [ih1', ih2']

/-- Witness for `fuzz_early_stop_at_fifty`: the all-crash verdict with budget
60, and a parity verdict with budget 7. -/
theorem fuzz_early_stop_at_fifty_witness :
    fuzz (fun _ => true) noFail noFail noFail 60 =
      (FuzzState.mk 50 50 50 0, .earlyLimit) ∧
    ((fuzz (fun i => i % 2 == 0) noFail noFail noFail 7).1.crashCount =
        numCrashVerdicts (fun i => i % 2 == 0) 1
          ((fuzz (fun i => i % 2 == 0) noFail noFail noFail 7).1.iterationCount) ∧
      (fuzz (fun i => i % 2 == 0) noFail noFail noFail 7).1.records =
        (fuzz (fun i => i % 2 == 0) noFail noFail noFail 7).1.crashCount ∧
      (fuzz (fun i => i % 2 == 0) noFail noFail noFail 7).1.crashCount ≤ 50 ∧
      ((fuzz (fun i => i % 2 == 0) noFail noFail noFail 7).2 = .earlyLimit →
        (fuzz (fun i => i % 2 == 0) noFail noFail noFail 7).1.crashCount = 50)) :=
  fuzz_early_stop_at_fifty 60 (fun _ => true) 7 (fun i => i % 2 == 0)
    (fun _ => rfl) (by omega)

/-- **C6 (counterexample).** The claim that an I/O failure while persisting
a crash record always lets the loop continue is false when the failure hits
`os.makedirs`, which runs outside `save_crash`'s try block: on a 3-iteration
all-crash run whose directory creation fails at iteration 1, the counter is
still incremented (to 1) but the exception escapes the loop body, the run
ends with the run-level error handler, and iterations 2 and 3 never run. -/
theorem mkdir_failure_aborts_loop :
    fuzz (fun _ => true) (fun _ => true) noFail noFail 3 =
      (FuzzState.mk 1 1 0 0, .runError) := rfl

/-- **C6 (amended).** When the I/O failure occurs inside `save_crash`'s try
block (writing the crash file, info file or tool output — after the record
directory was created), the failure is caught and logged, the crash counter
is still incremented, and the fuzzing loop continues with the next
iteration.  A failure of the record-directory creation itself
(`os.makedirs`, outside the try block) still increments the counter but
aborts the loop, as the counterexample shows. -/
theorem write_failure_continues_loop (verdict mkdirFail writeFail mutFail : Nat → Bool)
    (rem i : Nat) (s : FuzzState) (hmut : mutFail i = false) (hv : verdict i = true)
    (hmk : mkdirFail i = false) (hwr : writeFail i = true)
    (hlt : s.crashCount + 1 < 50) :
    fuzzLoop verdict mkdirFail writeFail mutFail (rem + 1) i s =
      fuzzLoop verdict mkdirFail writeFail mutFail rem (i + 1)
        (FuzzState.mk i (s.crashCount + 1) (s.records + 1) (s.archiveLogs + 1)) := by
  have h50 : ¬ 50 ≤ s.crashCount + 1 := by omega
  simp [fuzzLoop, hmut, hv, hmk, hwr, save_crash, h50]

/-- Witness for `write_failure_continues_loop`: iteration 1 of a 2-iteration
run whose archive write fails. -/
theorem write_failure_continues_loop_witness :
    fuzzLoop (fun _ => true) noFail (fun _ => true) noFail 2 1 initState =
      fuzzLoop (fun _ => true) noFail (fun _ => true) noFail 1 2
        (FuzzState.mk 1 1 1 1) :=
  write_failure_continues_loop (fun _ => true) noFail (fun _ => true) noFail 1 1
    initState rfl rfl rfl rfl (by decide)

/-- **C2.** The claim (and the spec) say a missing seed archive is
synthesized with five characteristic entries before fuzzing; the code
contradicts its own `create_base_zip` docstring: `main` constructs
`SevenZipFuzzer` first, whose `__init__` calls `sys.exit(1)` when the seed
path is missing, so `create_base_zip`'s missing-file branch is unreachable
and nothing is synthesized.  Had it been reached, it would write exactly the
five claimed entries (plain text, binary, empty, nested path, long name). -/
theorem seed_synthesis_unreachable :
    mainSeedFlow false true = (.exitedEarly 1, []) ∧
    create_base_zip false = baseZipEntries ∧
    baseZipEntries.length = 5 :=
  ⟨rfl, rfl, rfl⟩

/-- **C8.** For every 200-byte buffer whose only local-entry-header signature
occurrence is at offset 0, compression-method mutation leaves byte 8 equal
to one of the fixed codes {0, 1, 8, 9, 12, 14, 96, 99, 255} and leaves
bytes 0 through 7 unchanged: the local pass writes a code at offset 0 + 8
and every other write of either pass lands at an index ≥ 9, and the central
pass cannot match at offset 0 because bytes 0-3 still hold the local
signature. -/
theorem compression_mutation_frame (d : ByteBuf) (r : RS)
    (hlen : d.length = 200) (hsig : sliceEq4 d 0 localSig = true)
    (honly : ∀ p, p < 200 → 0 < p → sliceEq4 d p localSig = false) :
    (bufOf (mutate_compression_methods d r)).getD 8 0 ∈ compMethodCodes ∧
    prefixAgree (bufOf (mutate_compression_methods d r)) d 8 = true := by
  have hsig' := hsig
  simp only [sliceEq4, localSig, Bool.and_eq_true, beq_iff_eq,
    decide_eq_true_eq, List.getD] at hsig'
  obtain ⟨⟨⟨⟨hle, h0⟩, h1⟩, h2⟩, h3⟩ := hsig'
  unfold mutate_compression_methods
  rw [hlen, show (200 : Nat) = 199 + 1 from rfl,
    compLoop_start_match localSig 199 d r (by omega) hsig]
  cases hd1 : compLoop localSig 199 (d.set 8 (choice compMethodCodes r).1)
      (choice compMethodCodes r).2 1 with
  | mk d1 r1 =>
      have hd1L : d1.length = 200 := by
        have hL := compLoop_length localSig 199
          (d.set 8 (choice compMethodCodes r).1) (choice compMethodCodes r).2 1
        rw [hd1] at hL
        simpa [hlen] using hL
      have hfr : ∀ j, j < 9 → d1.getD j 0 =
          (d.set 8 (choice compMethodCodes r).1).getD j 0 := by
        intro j hj
        have hF := compLoop_frame localSig 199
          (d.set 8 (choice compMethodCodes r).1) (choice compMethodCodes r).2 1 j
          (by omega)
        rw [hd1] at hF
        exact hF
      have hd1_8 : d1.getD 8 0 = (choice compMethodCodes r).1 := by
        rw [hfr 8 (by omega)]
        exact getD_set_self _ _ d 8 (by omega)
      have hd1_lt8 : ∀ j, j < 8 → d1.getD j 0 = d.getD j 0 := by
        intro j hj
        rw [hfr j (by omega)]
        exact getD_set_ne _ _ d 8 j (by omega)
      have hcen : sliceEq4 d1 0 centralSig = false := by
        have hd1_2 : d1.getD 2 0 = 3 := by rw [hd1_lt8 2 (by omega)]; exact h2
        have hne : (d1.getD (0 + 2) 0 == centralSig.getD 2 0) = false := by
          show (d1.getD 2 0 == 1) = false
          rw [hd1_2]
          rfl
        unfold sliceEq4
        rw [hne]
        simp
      dsimp only
      rw [hd1L, show (200 : Nat) = 199 + 1 from rfl,
        compLoop_start_nomatch centralSig 199 d1 r1 (by omega) hcen, bufOf_ok]
      have hfrC : ∀ j, j < 9 →
          ((compLoop centralSig 199 d1 r1 1).1).getD j 0 = d1.getD j 0 :=
        fun j hj => compLoop_frame centralSig 199 d1 r1 1 j (by omega)
      constructor
      · rw [hfrC 8 (by omega), hd1_8]
        exact choice_mem compMethodCodes r (by simp [compMethodCodes])
      · simp only [prefixAgree, List.all_eq_true, List.mem_range, beq_iff_eq]
        intro j hj
        rw [hfrC j (by omega), hd1_lt8 j (by omega)]

set_option maxRecDepth 100000 in
/-- Witness for `compression_mutation_frame`: the 200-byte buffer holding the
local signature followed by 196 zero bytes. -/
theorem compression_mutation_frame_witness :
    (bufOf (mutate_compression_methods (localSig ++ List.replicate 196 0)
        (RS.mk (fun _ => 0) 0))).getD 8 0 ∈ compMethodCodes ∧
    prefixAgree (bufOf (mutate_compression_methods (localSig ++ List.replicate 196 0)
        (RS.mk (fun _ => 0) 0))) (localSig ++ List.replicate 196 0) 8 = true :=
  compression_mutation_frame (localSig ++ List.replicate 196 0) (RS.mk (fun _ => 0) 0)
    (by decide) (by decide) (by decide)

end SevenZipFuzzer
